import Mathlib

/-!
Shallow embedding of the terminal text editor in `src/rust_editor/src/main.rs`
and proofs about its state machine.

Modelling conventions:
* Rust `String`s are modelled as `List Char` (their decoded character
  content; a Rust string is always valid UTF-8).  Rust, however, indexes
  strings by UTF-8 BYTE offset: `len`, `insert`, `remove`, `split_off`,
  `find`, and slicing all count bytes, and an index inside a multi-byte
  character panics.  Two models are therefore used.  The character-level
  operations (`insert_char_op`, `backspace_op`, `enter_op`, `findSub`,
  `searchLineFrom`, `perform_search`) index by character position; they
  coincide with the source exactly on ASCII content, where byte offsets and
  character positions agree, and carry claims whose conclusions do not
  depend on string indexing at all (history, dispatch) or that are
  evaluated at concrete ASCII inputs.  The byte-accurate counterparts
  (`insert_char_op_bytes`, `backspace_op_bytes`, `enter_op_bytes`,
  `findSubB`, `searchLineFromB`, `perform_search_bytes`, and
  `highlight_line`'s comment branch) model the byte offsets and the
  mid-character panics exactly via `Char.utf8Size` and settle the
  byte-sensitive claims; an ASCII bridge proves the two layers equal on
  ASCII content.  Rust's Unicode-aware `str::to_lowercase` is modelled only
  on the ASCII range (`lowerStr`), which is why the search theorem carries
  an ASCII hypothesis.
* Rust `Vec` stacks (`undo_stack`, `redo_stack`) are modelled as Lean lists
  with the top of the stack at the head; `push` is `cons` and `pop` takes the
  head.
* Rendering (`draw_rows`, `refresh_screen`, the status bar), raw-terminal
  setup, and the 50 ms key-debounce timestamps (`last_key`, `last_key_time`)
  are input/output and timing concerns outside the state machine; keypress
  processing is modelled for events that pass the debounce guard.  The
  `press` flag of an event models the `KeyEventKind::Press` check, which both
  keypress handlers do perform on the state machine's path.
* The outcome of the external `fs::write` call made by `save` is passed in as
  an explicit boolean (`true` = the write succeeded).
* Fallible or panicking code paths return `Option`; `none` is a panic.
-/

namespace TextEditor

/-- Color classes the highlighter assigns (the crossterm colors named in the
source: DarkGrey for comments, Green for strings, Magenta for numbers, Blue
for keywords, Cyan for types, Reset for plain text). -/
inductive Color where
  | darkGrey
  | green
  | magenta
  | blue
  | cyan
  | reset
deriving DecidableEq

/-- Key codes of the crossterm events the editor dispatches on.  `other`
stands for every key code the source leaves to its catch-all arms. -/
inductive KeyCode where
  | char (c : Char)
  | backspace
  | enter
  | esc
  | left
  | right
  | up
  | down
  | other
deriving DecidableEq

/-- Keyboard event: key code, the ALT and CONTROL modifier flags, and whether
this is a press event (`KeyEventKind::Press`). -/
structure KeyEventM where
  code : KeyCode
  alt : Bool
  ctrl : Bool
  press : Bool
deriving DecidableEq

/-- Snapshot of buffer and cursor (`struct EditorState` in the source). -/
structure EditorState where
  buffer : List (List Char)
  cursor_x : Nat
  cursor_y : Nat
deriving DecidableEq

/-- Editor state (`struct Editor` in the source).  The debounce fields
`last_key` and `last_key_time` are omitted (input-timing concerns, see the
module docstring); all other fields are kept. -/
structure Editor where
  cursor_x : Nat
  cursor_y : Nat
  screen_rows : Nat
  screen_cols : Nat
  rows : List (List Char)
  filename : Option (List Char)
  dirty : Bool
  col_offset : Nat
  undo_stack : List EditorState
  redo_stack : List EditorState
  search_mode : Bool
  search_query : List Char
  search_results : List (Nat × Nat)
  current_match : Nat
deriving DecidableEq

/-- Editor::snapshot: copy of the current buffer and cursor. -/
def snapshot (e : Editor) : EditorState :=
  { buffer := e.rows, cursor_x := e.cursor_x, cursor_y := e.cursor_y }

/-- Editor::restore: overwrite buffer and cursor from a snapshot. -/
def restore (e : Editor) (s : EditorState) : Editor :=
  { e with rows := s.buffer, cursor_x := s.cursor_x, cursor_y := s.cursor_y }

/-- Editor::push_undo: push a snapshot of the current state onto the undo
stack and clear the redo history. -/
def push_undo (e : Editor) : Editor :=
  { e with undo_stack := snapshot e :: e.undo_stack, redo_stack := [] }

/-- Editor::scroll_to_cursor (the identical inline block at the end of
process_keypress is modelled by the same function): keep the cursor column
inside the horizontal viewport. -/
def scroll_to_cursor (e : Editor) : Editor :=
  if e.cursor_x < e.col_offset then { e with col_offset := e.cursor_x }
  else if e.cursor_x ≥ e.col_offset + e.screen_cols then
    { e with col_offset := e.cursor_x - e.screen_cols + 1 }
  else e

/-- Editor::save.  With no filename the body is skipped and `Ok(())` is
returned.  With a filename, `fs::write` is attempted: on failure the `?`
operator returns the error before `dirty` is cleared, on success `dirty` is
cleared.  `writeOk` is the outcome of the external write. -/
def save (e : Editor) (writeOk : Bool) : Editor :=
  match e.filename with
  | none => e
  | some _ => if writeOk then { e with dirty := false } else e

/-- Character-insert arm of process_keypress (after push_undo): insert `c`
at the cursor column of the cursor row, guarded by the row and column bounds
checks the source performs.  Character-level model of the byte-indexed
`String::insert` and `String::len`: it coincides with the source exactly
when the line is ASCII; the byte-accurate version, including the
mid-character panic, is `insert_char_op_bytes`. -/
def insert_char_op (e : Editor) (c : Char) : Editor :=
  if e.cursor_y < e.rows.length then
    let line := e.rows.getD e.cursor_y []
    if e.cursor_x ≤ line.length then
      { e with
        rows := e.rows.set e.cursor_y (line.take e.cursor_x ++ c :: line.drop e.cursor_x),
        cursor_x := e.cursor_x + 1,
        dirty := true }
    else e
  else e

/-- Backspace arm of process_keypress (after push_undo).  With `cursor_x > 0`
the character left of the cursor is removed.  With `cursor_x == 0` and
`cursor_y > 0` the current line is removed (`Vec::remove`, modelled as
`take ++ drop`) and appended to the previous line (`push_str`, modelled as
`List.set` with the concatenation); the cursor moves to the end of what was
the previous line.  At (0,0) nothing happens.  Character-level model: the
source's `String::remove` index and the `self.rows[cursor_y].len()`
assigned to the cursor column are UTF-8 byte quantities, which coincide
with character positions exactly on ASCII lines; the byte-accurate version
is `backspace_op_bytes`. -/
def backspace_op (e : Editor) : Editor :=
  if e.cursor_y < e.rows.length then
    if 0 < e.cursor_x then
      let line := e.rows.getD e.cursor_y []
      { e with
        rows := e.rows.set e.cursor_y (line.take (e.cursor_x - 1) ++ line.drop e.cursor_x),
        cursor_x := e.cursor_x - 1,
        dirty := true }
    else if 0 < e.cursor_y then
      let current_line := e.rows.getD e.cursor_y []
      let rows1 := e.rows.take e.cursor_y ++ e.rows.drop (e.cursor_y + 1)
      let prev := rows1.getD (e.cursor_y - 1) []
      { e with
        rows := rows1.set (e.cursor_y - 1) (prev ++ current_line),
        cursor_y := e.cursor_y - 1,
        cursor_x := prev.length,
        dirty := true }
    else e
  else e

/-- Enter arm of process_keypress (after push_undo): `split_off(cursor_x)`
keeps the text before the cursor on the current line and moves the rest to a
new line inserted just below (`Vec::insert`, modelled as `take ++ [x] ++
drop`); the cursor moves to the start of the new line.  Character-level
model of the byte-indexed `split_off` (which panics mid-character);
the byte-accurate version is `enter_op_bytes`. -/
def enter_op (e : Editor) : Editor :=
  if e.cursor_y < e.rows.length then
    let line := e.rows.getD e.cursor_y []
    let new_line := line.drop e.cursor_x
    let rows1 := e.rows.set e.cursor_y (line.take e.cursor_x)
    { e with
      rows := rows1.take (e.cursor_y + 1) ++ [new_line] ++ rows1.drop (e.cursor_y + 1),
      cursor_y := e.cursor_y + 1,
      cursor_x := 0,
      dirty := true }
  else e

/-- Left-arrow arm of process_keypress. -/
def left_op (e : Editor) : Editor :=
  if 0 < e.cursor_x then { e with cursor_x := e.cursor_x - 1 }
  else if 0 < e.cursor_y then
    { e with cursor_y := e.cursor_y - 1,
             cursor_x := (e.rows.getD (e.cursor_y - 1) []).length }
  else e

/-- Right-arrow arm of process_keypress. -/
def right_op (e : Editor) : Editor :=
  if e.cursor_y < e.rows.length then
    if e.cursor_x < (e.rows.getD e.cursor_y []).length then
      { e with cursor_x := e.cursor_x + 1 }
    else if e.cursor_y + 1 < e.rows.length then
      { e with cursor_y := e.cursor_y + 1, cursor_x := 0 }
    else e
  else e

/-- Up-arrow arm of process_keypress. -/
def up_op (e : Editor) : Editor :=
  if 0 < e.cursor_y then
    { e with cursor_y := e.cursor_y - 1,
             cursor_x := min e.cursor_x (e.rows.getD (e.cursor_y - 1) []).length }
  else e

/-- Down-arrow arm of process_keypress. -/
def down_op (e : Editor) : Editor :=
  if e.cursor_y + 1 < e.rows.length then
    { e with cursor_y := e.cursor_y + 1,
             cursor_x := min e.cursor_x (e.rows.getD (e.cursor_y + 1) []).length }
  else e

/-- Ctrl+z arm of process_keypress: pop the undo stack; if non-empty, push a
snapshot of the current state onto the redo stack (the pop only changed the
stack, not buffer or cursor, so snapshotting after the pop equals
snapshotting before it) and restore the popped state. -/
def undo_op (e : Editor) : Editor :=
  match e.undo_stack with
  | [] => e
  | prev :: rest =>
    restore { e with undo_stack := rest, redo_stack := snapshot e :: e.redo_stack } prev

/-- Ctrl+x arm of process_keypress: symmetric to `undo_op`. -/
def redo_op (e : Editor) : Editor :=
  match e.redo_stack with
  | [] => e
  | next :: rest =>
    restore { e with redo_stack := rest, undo_stack := snapshot e :: e.undo_stack } next

/-- Editor::process_keypress for an event that passed the debounce guard.
Returns the new state and whether the main loop should quit (`true` only for
Alt+q, which returns before the final scroll recomputation; every other arm
falls through to it).  The `eprintln!` on a failed save is terminal output
and leaves the state unchanged; the handler then unconditionally clears the
dirty flag, exactly as the source does. -/
def process_keypress (e : Editor) (ev : KeyEventM) (writeOk : Bool) : Editor × Bool :=
  if ev.press = false then (e, false)
  else
    match ev.code with
    | KeyCode.char c =>
      if c = 'q' ∧ ev.alt = true then (e, true)
      else if c = 's' ∧ ev.alt = true then
        (scroll_to_cursor { save e writeOk with dirty := false }, false)
      else if c = 'z' ∧ ev.ctrl = true then (scroll_to_cursor (undo_op e), false)
      else if c = 'x' ∧ ev.ctrl = true then (scroll_to_cursor (redo_op e), false)
      else (scroll_to_cursor (insert_char_op (push_undo e) c), false)
    | KeyCode.backspace => (scroll_to_cursor (backspace_op (push_undo e)), false)
    | KeyCode.enter => (scroll_to_cursor (enter_op (push_undo e)), false)
    | KeyCode.left => (scroll_to_cursor (left_op e), false)
    | KeyCode.right => (scroll_to_cursor (right_op e), false)
    | KeyCode.up => (scroll_to_cursor (up_op e), false)
    | KeyCode.down => (scroll_to_cursor (down_op e), false)
    | _ => (scroll_to_cursor e, false)

/-- Editor::start_search: enter search mode with a fresh query. -/
def start_search (e : Editor) : Editor :=
  { e with search_mode := true, search_query := [], search_results := [],
           current_match := 0 }

/-- Rust `str::find(&q)`: index of the first occurrence of `q` in `s`
(`some 0` for an empty pattern), `none` if there is none.  Character-level
model: Rust returns a byte offset, which equals the character position
exactly on ASCII haystacks; the byte-accurate version is `findSubB`. -/
def findSub (q : List Char) : List Char → Option Nat
  | [] => if q.isPrefixOf ([] : List Char) then some 0 else none
  | c :: t =>
    if q.isPrefixOf (c :: t) then some 0
    else Option.map (fun n => n + 1) (findSub q t)

/-- Lowercasing as used by the search (`str::to_lowercase` applied to the
query and to every line).  Modelled character-wise with `Char.toLower`,
which agrees with Rust exactly on ASCII strings; Rust's Unicode-aware
lowercasing (for example capital E acute to small e acute) is outside this
model, which is why the search theorem assumes ASCII content. -/
def lowerStr (s : List Char) : List Char := s.map Char.toLower

/-- Inner `while let` loop of perform_search on one (already lowercased)
line: repeatedly find the query in the suffix beginning at `start`, record
the absolute position, and resume one character after the found position
(`start += pos + 1`).  The loop is driven by a fuel argument bounding its
iteration count; `start` strictly increases at every step and, for a
non-empty query, every recorded position is below the line length, so
`line.length + 1` iterations always suffice (the callers pass that bound,
and the characterization lemmas below are proved for it).  Character-level
model: the source's `start` and the recorded positions are byte offsets and
the mid-character slice `&line_lower[start..]` can panic; byte-accurate
version: `searchLineFromB`.  The two coincide on ASCII lines. -/
def searchLineFrom (line q : List Char) : Nat → Nat → List Nat
  | _, 0 => []
  | start, fuel + 1 =>
    match findSub q (line.drop start) with
    | none => []
    | some pos => (start + pos) :: searchLineFrom line q (start + pos + 1) fuel

/-- Editor::perform_search: clear the results; an empty query stops there.
Otherwise scan every line (lowercased) for the lowercased query, collect
`(row, col)` pairs in scan order, reset `current_match`, and — if the result
list is non-empty — jump the cursor to `results[0]` and re-derive the
scroll.  The source assigns the match row to `cursor_x` and the match column
to `cursor_y` (`self.cursor_x = row; self.cursor_y = col;`); that swap is
reproduced faithfully here.  Character-level model (see `searchLineFrom`
and `lowerStr`): used for the concrete ASCII evaluation of the cursor
jump; the byte-accurate version is `perform_search_bytes`. -/
def perform_search (e : Editor) : Editor :=
  let e0 := { e with search_results := ([] : List (Nat × Nat)) }
  if e0.search_query = [] then e0
  else
    let q := lowerStr e0.search_query
    let results :=
      e0.rows.enum.flatMap fun il =>
        (searchLineFrom (lowerStr il.2) q 0 ((lowerStr il.2).length + 1)).map
          fun p => (il.1, p)
    let e1 := { e0 with search_results := results, current_match := 0 }
    match results with
    | [] => e1
    | (row, col) :: _ => scroll_to_cursor { e1 with cursor_x := row, cursor_y := col }

/-- Editor::process_search_keypress for a press event.  Escape leaves search
mode discarding query and results; Enter (with a non-empty result list)
advances to the next match cyclically and jumps the cursor there (row and
column the right way around, unlike `perform_search`); Backspace pops the
last query character and re-runs the search; any character key is appended
to the query and re-runs the search; everything else is ignored.  The
source's return value is always `false`. -/
def process_search_keypress (e : Editor) (ev : KeyEventM) : Editor :=
  if ev.press = false then e
  else
    match ev.code with
    | KeyCode.esc =>
      { e with search_mode := false, search_query := [], search_results := [] }
    | KeyCode.enter =>
      if e.search_results = [] then e
      else
        let cm := (e.current_match + 1) % e.search_results.length
        let rc := e.search_results.getD cm (0, 0)
        scroll_to_cursor { e with current_match := cm, cursor_y := rc.1, cursor_x := rc.2 }
    | KeyCode.backspace =>
      perform_search { e with search_query := e.search_query.dropLast }
    | KeyCode.char c =>
      perform_search { e with search_query := e.search_query ++ [c] }
    | _ => e

/-- Body of the main input loop for one keyboard event: in search mode the
event goes to process_search_keypress (whose return value is ignored, so the
loop never quits from search mode); otherwise Alt+f enters search mode, and
every other event goes to process_keypress, whose boolean decides whether
the loop breaks. -/
def dispatch (e : Editor) (ev : KeyEventM) (writeOk : Bool) : Editor × Bool :=
  if e.search_mode then (process_search_keypress e ev, false)
  else if ev.code = KeyCode.char 'f' ∧ ev.alt = true then (start_search e, false)
  else process_keypress e ev writeOk

/-- Reserved words of highlight_line, in source order. -/
def keywordsList : List (List Char) :=
  ["fn".toList, "let".toList, "mut".toList, "if".toList, "else".toList,
   "match".toList, "while".toList, "loop".toList, "for".toList, "in".toList,
   "return".toList, "struct".toList, "impl".toList, "enum".toList,
   "use".toList, "mod".toList, "pub".toList, "crate".toList, "const".toList,
   "static".toList, "as".toList, "break".toList, "continue".toList,
   "trait".toList, "where".toList, "ref".toList, "type".toList]

/-- Built-in type names of highlight_line, in source order. -/
def typesList : List (List Char) :=
  ["usize".toList, "String".toList, "Result".toList, "Option".toList,
   "Vec".toList, "i32".toList, "u32".toList, "bool".toList]

/-- Rust `char::is_alphanumeric`.  Rust's version is Unicode-aware; it is
modelled here as ASCII alphanumerics extended with the Latin-1 letters
(U+00C0 to U+00FF minus the multiplication and division signs), which agrees
with Rust on every character appearing in this development (in particular on
ASCII, on the Latin-1 letters, and on the euro sign, which is not
alphanumeric). -/
def rustIsAlphanumeric (c : Char) : Bool :=
  c.isAlphanum ||
    (0xC0 ≤ c.toNat && c.toNat ≤ 0xFF && c.toNat != 0xD7 && c.toNat != 0xF7)

/-- Word-character test of highlight_line's identifier branch:
`is_alphanumeric() || c == '_'`. -/
def wordChar (c : Char) : Bool := rustIsAlphanumeric c || c == '_'

/-- Rust byte slicing `&line[i..]` where `i` is a byte offset into the UTF-8
encoding of `line`: drop `i` bytes; if `i` falls inside a character the Rust
program panics, modelled by `none`. -/
def utf8ByteDrop : List Char → Nat → Option (List Char)
  | cs, 0 => some cs
  | [], _ + 1 => none
  | c :: cs, n + 1 =>
    if c.utf8Size ≤ n + 1 then utf8ByteDrop cs (n + 1 - c.utf8Size) else none

/-- Scanning loop of Editor::highlight_line over `chars` (the character
vector of the line), producing `(substring, color)` tokens.  The branches in
source order: a `//` pair consumes the rest of the line as one comment token
— via the byte slice `&line[i..]` although `i` counts characters, modelled
exactly by `utf8ByteDrop` (a panic yields `none`); a quote starts a string
token running through the closing quote or the end of the line; a maximal
ASCII-digit run is a number token; a maximal word-character run is an
identifier, colored as keyword, type, or plain; any other character is its
own plain token.  `fuel` bounds the number of loop iterations; every
iteration advances the index by at least one, so the `line.length + 1`
supplied by `highlight_line` always suffices and the fuel-exhaustion arm is
unreachable there. -/
def highlightLoop (line : List Char) : Nat → Nat → Option (List (List Char × Color))
  | _, 0 => none
  | i, fuel + 1 =>
    if i < line.length then
      let c := line.getD i ' '
      if c = '/' ∧ i + 1 < line.length ∧ line.getD (i + 1) ' ' = '/' then
        match utf8ByteDrop line i with
        | none => none
        | some rest => some [(rest, Color.darkGrey)]
      else if c = '"' then
        let j0 := i + 1 + ((line.drop (i + 1)).takeWhile (fun ch => ch != '"')).length
        let j := if j0 < line.length then j0 + 1 else j0
        match highlightLoop line j fuel with
        | none => none
        | some rest => some (((line.drop i).take (j - i), Color.green) :: rest)
      else if c.isDigit then
        let j := i + ((line.drop i).takeWhile Char.isDigit).length
        match highlightLoop line j fuel with
        | none => none
        | some rest => some (((line.drop i).take (j - i), Color.magenta) :: rest)
      else if wordChar c = true then
        let j := i + ((line.drop i).takeWhile wordChar).length
        let word := (line.drop i).take (j - i)
        let color :=
          if keywordsList.contains word then Color.blue
          else if typesList.contains word then Color.cyan
          else Color.reset
        match highlightLoop line j fuel with
        | none => none
        | some rest => some ((word, color) :: rest)
      else
        match highlightLoop line (i + 1) fuel with
        | none => none
        | some rest => some (([c], Color.reset) :: rest)
    else some []

/-- Editor::highlight_line: run the scanning loop from index 0. -/
def highlight_line (line : List Char) : Option (List (List Char × Color)) :=
  highlightLoop line 0 (line.length + 1)

/-- Concatenated text of a token list. -/
def tokensText (ts : List (List Char × Color)) : List Char :=
  (ts.map Prod.fst).flatten

/-! Byte-accurate string layer.  Rust indexes strings by UTF-8 byte offset
and panics on an index that falls inside a multi-byte character; these
definitions model that arithmetic exactly on the decoded character list. -/

/-- Rust `String::len`: the UTF-8 byte length of the string. -/
def utf8Len : List Char → Nat
  | [] => 0
  | c :: t => c.utf8Size + utf8Len t

/-- Splitting a string at byte offset `i`: the characters encoded before
the offset and those after it.  `none` when `i` exceeds the byte length or
falls inside a multi-byte character — the positions at which Rust's
byte-indexed `String::insert`, `String::remove`, and `String::split_off`
panic. -/
def byteSplit : List Char → Nat → Option (List Char × List Char)
  | s, 0 => some ([], s)
  | [], _ + 1 => none
  | c :: t, n + 1 =>
    if c.utf8Size ≤ n + 1 then
      Option.map (fun pq => (c :: pq.1, pq.2)) (byteSplit t (n + 1 - c.utf8Size))
    else none

/-- Byte-accurate character-insert arm (after push_undo): the guard
compares `cursor_x` against the byte length (`line.len()`), and
`String::insert` panics (`none`) when `cursor_x` is not on a character
boundary.  The source then advances `cursor_x` by exactly one, whatever the
byte width of the inserted character. -/
def insert_char_op_bytes (e : Editor) (c : Char) : Option Editor :=
  if e.cursor_y < e.rows.length then
    let line := e.rows.getD e.cursor_y []
    if e.cursor_x ≤ utf8Len line then
      match byteSplit line e.cursor_x with
      | none => none
      | some (pre, post) =>
        some { e with rows := e.rows.set e.cursor_y (pre ++ c :: post),
                      cursor_x := e.cursor_x + 1, dirty := true }
    else some e
  else some e

/-- Byte-accurate backspace arm (after push_undo).  With `cursor_x > 0`,
`line.remove(cursor_x - 1)` removes the character starting at that byte
offset and panics (`none`) when the offset is at or past the end or not on a
character boundary.  In the line-merge case the source assigns the previous
line's UTF-8 byte length (`self.rows[cursor_y].len()`) to `cursor_x`.  At
(0,0) nothing happens. -/
def backspace_op_bytes (e : Editor) : Option Editor :=
  if e.cursor_y < e.rows.length then
    if 0 < e.cursor_x then
      let line := e.rows.getD e.cursor_y []
      match byteSplit line (e.cursor_x - 1) with
      | none => none
      | some (pre, post) =>
        match post with
        | [] => none
        | _ :: rest =>
          some { e with rows := e.rows.set e.cursor_y (pre ++ rest),
                        cursor_x := e.cursor_x - 1, dirty := true }
    else if 0 < e.cursor_y then
      let current_line := e.rows.getD e.cursor_y []
      let rows1 := e.rows.take e.cursor_y ++ e.rows.drop (e.cursor_y + 1)
      let prev := rows1.getD (e.cursor_y - 1) []
      some { e with rows := rows1.set (e.cursor_y - 1) (prev ++ current_line),
                    cursor_y := e.cursor_y - 1,
                    cursor_x := utf8Len prev, dirty := true }
    else some e
  else some e

/-- Byte-accurate enter arm (after push_undo): `split_off(cursor_x)` splits
at the byte offset and panics (`none`) past the end or mid-character. -/
def enter_op_bytes (e : Editor) : Option Editor :=
  if e.cursor_y < e.rows.length then
    let line := e.rows.getD e.cursor_y []
    match byteSplit line e.cursor_x with
    | none => none
    | some (pre, post) =>
      let rows1 := e.rows.set e.cursor_y pre
      some { e with
        rows := rows1.take (e.cursor_y + 1) ++ [post] ++ rows1.drop (e.cursor_y + 1),
        cursor_y := e.cursor_y + 1, cursor_x := 0, dirty := true }
  else some e

/-- The character-insert arm of process_keypress under the byte-accurate
string model: push_undo, the insert (a panic aborts), the scroll
re-derivation, quit flag false. -/
def insert_keystroke_bytes (e : Editor) (c : Char) : Option (Editor × Bool) :=
  (insert_char_op_bytes (push_undo e) c).map fun e1 => (scroll_to_cursor e1, false)

/-- The Backspace arm of process_keypress under the byte-accurate string
model: push_undo, the backspace operation (a panic aborts), the scroll
re-derivation, quit flag false. -/
def backspace_keystroke_bytes (e : Editor) : Option (Editor × Bool) :=
  (backspace_op_bytes (push_undo e)).map fun e1 => (scroll_to_cursor e1, false)

/-- Byte-accurate `str::find(&q)`: the byte offset of the first occurrence
of `q` in `s`.  UTF-8 is self-synchronizing, so an occurrence of a valid
pattern always starts on a character boundary; the result is therefore the
UTF-8 length of the character prefix before the first character-position
match. -/
def findSubB (q : List Char) : List Char → Option Nat
  | [] => if q.isPrefixOf ([] : List Char) then some 0 else none
  | c :: t =>
    if q.isPrefixOf (c :: t) then some 0
    else Option.map (fun n => n + c.utf8Size) (findSubB q t)

/-- Byte-accurate inner loop of perform_search on one lowercased line:
`start` is a byte offset; each iteration slices `&line_lower[start..]`
(panicking — `none` — when `start` falls inside a multi-byte character,
which happens when the previous match ends in the middle of one), finds the
query, records the absolute byte offset, and resumes one byte further.  The
fuel bounds the iteration count exactly as in `searchLineFrom`; the byte
length plus one always suffices for a non-empty query. -/
def searchLineFromB (line q : List Char) : Nat → Nat → Option (List Nat)
  | _, 0 => some []
  | start, fuel + 1 =>
    match utf8ByteDrop line start with
    | none => none
    | some suffix =>
      match findSubB q suffix with
      | none => some []
      | some pos =>
        Option.map (fun tail => (start + pos) :: tail)
          (searchLineFromB line q (start + pos + 1) fuel)

/-- The per-line loop of perform_search over the enumerated rows, collecting
`(row, byte-column)` pairs; a panic while scanning any line aborts the whole
search (`none`), as the program would. -/
def collectLines : List (Nat × List Char) → List Char → Option (List (Nat × Nat))
  | [], _ => some []
  | il :: rest, q =>
    match searchLineFromB (lowerStr il.2) q 0 (utf8Len (lowerStr il.2) + 1) with
    | none => none
    | some ps =>
      Option.map (fun tail => (ps.map fun p => (il.1, p)) ++ tail) (collectLines rest q)

/-- Byte-accurate Editor::perform_search: clear the results; an empty query
stops there.  Otherwise scan every lowercased line for the lowercased query
collecting byte-offset columns (`none` on a mid-character panic), reset
`current_match`, and on a non-empty result list jump the cursor to
`results[0]` — with the source's row/column swap — and re-derive the
scroll. -/
def perform_search_bytes (e : Editor) : Option Editor :=
  let e0 := { e with search_results := ([] : List (Nat × Nat)) }
  if e0.search_query = [] then some e0
  else
    let q := lowerStr e0.search_query
    match collectLines e0.rows.enum q with
    | none => none
    | some results =>
      let e1 := { e0 with search_results := results, current_match := 0 }
      some (match results with
        | [] => e1
        | (row, col) :: _ => scroll_to_cursor { e1 with cursor_x := row, cursor_y := col })

/-- ASCII content: every character's code point is below 128, so its UTF-8
encoding is one byte and byte offsets coincide with character positions.
This is the scope on which the character-level operations agree with the
byte-accurate ones. -/
def AllAscii (s : List Char) : Prop := ∀ c ∈ s, c.toNat < 128

/-- Positions at which `q` occurs in `line` (all of them, overlapping ones
included): the positions below the line length whose suffix starts with
`q`, in increasing order. -/
def occOf (line q : List Char) : List Nat :=
  (List.range line.length).filter fun p => q.isPrefixOf (line.drop p)

/-- Case-insensitive occurrences of `q` across all of `rows`, row by row:
the reference value the search results are proved equal to. -/
def allOccurrences (rows : List (List Char)) (q : List Char) : List (Nat × Nat) :=
  rows.enum.flatMap fun il => (occOf (lowerStr il.2) (lowerStr q)).map fun p => (il.1, p)

/-- Modelled from the spec (section 4.4): scanning every line left to right
for the non-overlapping case-insensitive occurrences of the query — after a
match the scan resumes past the end of that match.  Used only to compare the
spec's wording against the implementation's result list. -/
def specNonOverlapFrom (line q : List Char) : Nat → Nat → List Nat
  | _, 0 => []
  | start, fuel + 1 =>
    match findSub q (line.drop start) with
    | none => []
    | some pos => (start + pos) :: specNonOverlapFrom line q (start + pos + q.length) fuel

/-- Modelled from the spec (section 4.4): the non-overlapping occurrence
list over all rows, row-major. -/
def specNonOverlapAll (rows : List (List Char)) (q : List Char) : List (Nat × Nat) :=
  rows.enum.flatMap fun il =>
    (specNonOverlapFrom (lowerStr il.2) (lowerStr q) 0 ((lowerStr il.2).length + 1)).map
      fun p => (il.1, p)

/-- Row-major ordering on search results: earlier row, or same row and
earlier column. -/
def lexLt (a b : Nat × Nat) : Prop := a.1 < b.1 ∨ (a.1 = b.1 ∧ a.2 < b.2)

/-- Structural invariant of spec section 3: the buffer is never empty, the
cursor row is a valid index, and the cursor column is at most the length of
the cursor line (the end-of-line insertion point). -/
def Inv (e : Editor) : Prop :=
  e.rows ≠ [] ∧ e.cursor_y < e.rows.length ∧
    e.cursor_x ≤ (e.rows.getD e.cursor_y []).length

/-- Press events that reach the three content-mutating arms of
process_keypress: Backspace, Enter, or a character key whose code and
modifiers do not match the quit, save, undo, or redo bindings. -/
def IsEditKeystroke (ev : KeyEventM) : Prop :=
  ev.press = true ∧
    match ev.code with
    | KeyCode.char c =>
      ¬(c = 'q' ∧ ev.alt = true) ∧ ¬(c = 's' ∧ ev.alt = true) ∧
        ¬(c = 'z' ∧ ev.ctrl = true) ∧ ¬(c = 'x' ∧ ev.ctrl = true)
    | KeyCode.backspace => True
    | KeyCode.enter => True
    | _ => False

instance (s : List Char) : Decidable (AllAscii s) :=
  inferInstanceAs (Decidable (∀ c ∈ s, c.toNat < 128))

instance (a b : Nat × Nat) : Decidable (lexLt a b) :=
  inferInstanceAs (Decidable (a.1 < b.1 ∨ (a.1 = b.1 ∧ a.2 < b.2)))

instance (e : Editor) : Decidable (Inv e) :=
  inferInstanceAs (Decidable (e.rows ≠ [] ∧ e.cursor_y < e.rows.length ∧
    e.cursor_x ≤ (e.rows.getD e.cursor_y []).length))

instance : (ev : KeyEventM) → Decidable (IsEditKeystroke ev)
  | ⟨KeyCode.char c, a, k, p⟩ =>
    inferInstanceAs (Decidable (p = true ∧
      (¬(c = 'q' ∧ a = true) ∧ ¬(c = 's' ∧ a = true) ∧
        ¬(c = 'z' ∧ k = true) ∧ ¬(c = 'x' ∧ k = true))))
  | ⟨KeyCode.backspace, _, _, p⟩ => inferInstanceAs (Decidable (p = true ∧ True))
  | ⟨KeyCode.enter, _, _, p⟩ => inferInstanceAs (Decidable (p = true ∧ True))
  | ⟨KeyCode.esc, _, _, p⟩ => inferInstanceAs (Decidable (p = true ∧ False))
  | ⟨KeyCode.left, _, _, p⟩ => inferInstanceAs (Decidable (p = true ∧ False))
  | ⟨KeyCode.right, _, _, p⟩ => inferInstanceAs (Decidable (p = true ∧ False))
  | ⟨KeyCode.up, _, _, p⟩ => inferInstanceAs (Decidable (p = true ∧ False))
  | ⟨KeyCode.down, _, _, p⟩ => inferInstanceAs (Decidable (p = true ∧ False))
  | ⟨KeyCode.other, _, _, p⟩ => inferInstanceAs (Decidable (p = true ∧ False))

/-- Editor whose remaining fields take the session-start values of
Editor::new (80-column screen), used for the concrete instances below. -/
def mkEditor (rows : List (List Char)) (cx cy : Nat) : Editor :=
  { cursor_x := cx, cursor_y := cy, screen_rows := 24, screen_cols := 80,
    rows := rows, filename := none, dirty := false, col_offset := 0,
    undo_stack := [], redo_stack := [], search_mode := false,
    search_query := [], search_results := [], current_match := 0 }

/-- Concrete state for the search-jump defect: one line "xxb", query "b". -/
def c1Input : Editor :=
  { (mkEditor ["xxb".toList] 0 0) with search_query := "b".toList }

/-- Concrete state for the save defect: a dirty unnamed buffer. -/
def c2NoName : Editor := { (mkEditor ["hello".toList] 0 0) with dirty := true }

/-- Concrete state for the save defect: a dirty named buffer (whose write
will be made to fail). -/
def c2Named : Editor :=
  { (mkEditor ["hello".toList] 0 0) with
    dirty := true
    filename := some ("f.txt".toList) }

/-- Concrete state for the overlap counterexample: one line "aaa",
query "aa". -/
def c3Input : Editor :=
  { (mkEditor ["aaa".toList] 0 0) with search_query := "aa".toList }

/-- Concrete state with an empty query, cursor away from the origin. -/
def c3EmptyQuery : Editor := mkEditor ["ab".toList, "cb".toList] 1 1

/-- Alt+s press event (save). -/
def altS : KeyEventM := ⟨KeyCode.char 's', true, false, true⟩

/-- Ctrl+z press event (undo). -/
def ctrlZ : KeyEventM := ⟨KeyCode.char 'z', false, true, true⟩

/-- Ctrl+x press event (redo). -/
def ctrlX : KeyEventM := ⟨KeyCode.char 'x', false, true, true⟩

/-- Unmodified character press event. -/
def charKey (c : Char) : KeyEventM := ⟨KeyCode.char c, false, false, true⟩

/-- Backspace press event. -/
def bsKey : KeyEventM := ⟨KeyCode.backspace, false, false, true⟩

/-- Enter press event. -/
def enterKey : KeyEventM := ⟨KeyCode.enter, false, false, true⟩

/-- Concrete state with non-empty undo and redo stacks, for the undo/redo
witness. -/
def c4W : Editor :=
  { (mkEditor ["ab".toList] 2 0) with
    undo_stack := [⟨["a".toList], 1, 0⟩]
    redo_stack := [⟨["abc".toList], 3, 0⟩] }

/-- Concrete search-mode state for the search-keystroke witness. -/
def c9W : Editor :=
  { (mkEditor ["ab".toList] 0 0) with
    search_mode := true
    search_query := "a".toList }

/-- Concrete two-line buffer with the cursor at the start of the second
line, the backspace line-merge scenario of the spec. -/
def c8W : Editor := mkEditor ["ab".toList, "cd".toList] 0 1

/-- Concrete non-ASCII buffer for the backspace byte-length divergence:
two-byte characters on the first line, cursor at the start of the second. -/
def c8Bad : Editor := mkEditor ["éé".toList, "x".toList] 0 1

/-- Concrete valid state from which one Backspace breaks the cursor-column
invariant of spec section 3 under the program's byte arithmetic. -/
def c7Bad : Editor := mkEditor ["éé".toList, []] 0 1

/-! List helper lemmas used throughout. -/

theorem getD_set_self {α : Type} (l : List α) (n : Nat) (a d : α) (h : n < l.length) :
    (l.set n a).getD n d = a := by
  induction l generalizing n with
  | nil => simp at h
  | cons x t ih =>
    cases n with
    | zero => rfl
    | succ m => exact ih m (by simpa using h)

theorem getD_append_lt {α : Type} (l₁ l₂ : List α) (n : Nat) (d : α) (h : n < l₁.length) :
    (l₁ ++ l₂).getD n d = l₁.getD n d := by
  induction l₁ generalizing n with
  | nil => simp at h
  | cons x t ih =>
    cases n with
    | zero => rfl
    | succ m => exact ih m (by simpa using h)

theorem getD_append_len {α : Type} (l₁ : List α) (x : α) (l₂ : List α) (d : α) :
    (l₁ ++ x :: l₂).getD l₁.length d = x := by
  induction l₁ with
  | nil => rfl
  | cons a t ih => exact ih

theorem set_append_len {α : Type} (l₁ : List α) (x : α) (l₂ : List α) (a : α) :
    (l₁ ++ x :: l₂).set l₁.length a = l₁ ++ a :: l₂ := by
  induction l₁ with
  | nil => rfl
  | cons b t ih => exact congrArg (List.cons b) ih

theorem take_succ_getD {α : Type} (l : List α) (n : Nat) (d : α) (h : n < l.length) :
    l.take (n + 1) = l.take n ++ [l.getD n d] := by
  induction l generalizing n with
  | nil => simp at h
  | cons x t ih =>
    cases n with
    | zero => rfl
    | succ m =>
      have hm := ih m (by simpa using h)
      simp only [List.take_succ_cons]
      exact congrArg (List.cons x) hm

theorem getD_take_lt {α : Type} (l : List α) (m n : Nat) (d : α) (h : n < m) :
    (l.take m).getD n d = l.getD n d := by
  induction l generalizing m n with
  | nil => simp [List.take_nil]
  | cons x t ih =>
    cases m with
    | zero => omega
    | succ k =>
      cases n with
      | zero => rfl
      | succ j => exact ih k j (by omega)

/-! Field lemmas for the elementary state operations. -/

@[simp] theorem snapshot_buffer (e : Editor) : (snapshot e).buffer = e.rows := rfl

@[simp] theorem snapshot_cursor_x (e : Editor) : (snapshot e).cursor_x = e.cursor_x := rfl

@[simp] theorem snapshot_cursor_y (e : Editor) : (snapshot e).cursor_y = e.cursor_y := rfl

@[simp] theorem restore_rows (e : Editor) (s : EditorState) : (restore e s).rows = s.buffer := rfl

@[simp] theorem restore_cursor_x (e : Editor) (s : EditorState) :
    (restore e s).cursor_x = s.cursor_x := rfl

@[simp] theorem restore_cursor_y (e : Editor) (s : EditorState) :
    (restore e s).cursor_y = s.cursor_y := rfl

@[simp] theorem restore_undo_stack (e : Editor) (s : EditorState) :
    (restore e s).undo_stack = e.undo_stack := rfl

@[simp] theorem restore_redo_stack (e : Editor) (s : EditorState) :
    (restore e s).redo_stack = e.redo_stack := rfl

@[simp] theorem push_undo_rows (e : Editor) : (push_undo e).rows = e.rows := rfl

@[simp] theorem push_undo_cursor_x (e : Editor) : (push_undo e).cursor_x = e.cursor_x := rfl

@[simp] theorem push_undo_cursor_y (e : Editor) : (push_undo e).cursor_y = e.cursor_y := rfl

@[simp] theorem push_undo_undo_stack (e : Editor) :
    (push_undo e).undo_stack = snapshot e :: e.undo_stack := rfl

@[simp] theorem push_undo_redo_stack (e : Editor) : (push_undo e).redo_stack = [] := rfl

@[simp] theorem scroll_to_cursor_rows (e : Editor) : (scroll_to_cursor e).rows = e.rows := by
  unfold scroll_to_cursor
  split
  · rfl
  · split <;> rfl

@[simp] theorem scroll_to_cursor_cursor_x (e : Editor) :
    (scroll_to_cursor e).cursor_x = e.cursor_x := by
  unfold scroll_to_cursor
  split
  · rfl
  · split <;> rfl

@[simp] theorem scroll_to_cursor_cursor_y (e : Editor) :
    (scroll_to_cursor e).cursor_y = e.cursor_y := by
  unfold scroll_to_cursor
  split
  · rfl
  · split <;> rfl

@[simp] theorem scroll_to_cursor_undo_stack (e : Editor) :
    (scroll_to_cursor e).undo_stack = e.undo_stack := by
  unfold scroll_to_cursor
  split
  · rfl
  · split <;> rfl

@[simp] theorem scroll_to_cursor_redo_stack (e : Editor) :
    (scroll_to_cursor e).redo_stack = e.redo_stack := by
  unfold scroll_to_cursor
  split
  · rfl
  · split <;> rfl

@[simp] theorem scroll_to_cursor_dirty (e : Editor) :
    (scroll_to_cursor e).dirty = e.dirty := by
  unfold scroll_to_cursor
  split
  · rfl
  · split <;> rfl

@[simp] theorem scroll_to_cursor_search_query (e : Editor) :
    (scroll_to_cursor e).search_query = e.search_query := by
  unfold scroll_to_cursor
  split
  · rfl
  · split <;> rfl

@[simp] theorem scroll_to_cursor_search_results (e : Editor) :
    (scroll_to_cursor e).search_results = e.search_results := by
  unfold scroll_to_cursor
  split
  · rfl
  · split <;> rfl

theorem save_rows (e : Editor) (w : Bool) : (save e w).rows = e.rows := by
  unfold save
  split
  · rfl
  · split <;> rfl

theorem save_cursor_x (e : Editor) (w : Bool) : (save e w).cursor_x = e.cursor_x := by
  unfold save
  split
  · rfl
  · split <;> rfl

theorem save_cursor_y (e : Editor) (w : Bool) : (save e w).cursor_y = e.cursor_y := by
  unfold save
  split
  · rfl
  · split <;> rfl

/-! Stack-preservation lemmas for the three edit operations. -/

theorem insert_char_op_undo_stack (e : Editor) (c : Char) :
    (insert_char_op e c).undo_stack = e.undo_stack := by
  unfold insert_char_op
  split
  · dsimp only
    split <;> rfl
  · rfl

theorem insert_char_op_redo_stack (e : Editor) (c : Char) :
    (insert_char_op e c).redo_stack = e.redo_stack := by
  unfold insert_char_op
  split
  · dsimp only
    split <;> rfl
  · rfl

theorem backspace_op_undo_stack (e : Editor) :
    (backspace_op e).undo_stack = e.undo_stack := by
  unfold backspace_op
  split
  · split
    · rfl
    · split <;> rfl
  · rfl

theorem backspace_op_redo_stack (e : Editor) :
    (backspace_op e).redo_stack = e.redo_stack := by
  unfold backspace_op
  split
  · split
    · rfl
    · split <;> rfl
  · rfl

theorem enter_op_undo_stack (e : Editor) : (enter_op e).undo_stack = e.undo_stack := by
  unfold enter_op
  split <;> rfl

theorem enter_op_redo_stack (e : Editor) : (enter_op e).redo_stack = e.redo_stack := by
  unfold enter_op
  split <;> rfl

/-! Reduction lemmas for keypress processing. -/

theorem undo_op_cons (e : Editor) (p : EditorState) (rest : List EditorState)
    (h : e.undo_stack = p :: rest) :
    undo_op e =
      restore { e with undo_stack := rest, redo_stack := snapshot e :: e.redo_stack } p := by
  unfold undo_op
  rw [h]

theorem redo_op_nil (e : Editor) (h : e.redo_stack = []) : redo_op e = e := by
  unfold redo_op
  rw [h]

theorem redo_op_cons (e : Editor) (p : EditorState) (rest : List EditorState)
    (h : e.redo_stack = p :: rest) :
    redo_op e =
      restore { e with redo_stack := rest, undo_stack := snapshot e :: e.undo_stack } p := by
  unfold redo_op
  rw [h]

theorem process_keypress_ctrlZ (e : Editor) (w : Bool) :
    process_keypress e ctrlZ w = (scroll_to_cursor (undo_op e), false) := rfl

theorem process_keypress_ctrlX (e : Editor) (w : Bool) :
    process_keypress e ctrlX w = (scroll_to_cursor (redo_op e), false) := rfl

theorem process_keypress_bs (e : Editor) (w : Bool) (a k : Bool) :
    process_keypress e ⟨KeyCode.backspace, a, k, true⟩ w =
      (scroll_to_cursor (backspace_op (push_undo e)), false) := rfl

theorem process_keypress_enter_key (e : Editor) (w : Bool) (a k : Bool) :
    process_keypress e ⟨KeyCode.enter, a, k, true⟩ w =
      (scroll_to_cursor (enter_op (push_undo e)), false) := rfl

theorem process_keypress_char (e : Editor) (w : Bool) (c : Char) (a k : Bool)
    (h1 : ¬(c = 'q' ∧ a = true)) (h2 : ¬(c = 's' ∧ a = true))
    (h3 : ¬(c = 'z' ∧ k = true)) (h4 : ¬(c = 'x' ∧ k = true)) :
    process_keypress e ⟨KeyCode.char c, a, k, true⟩ w =
      (scroll_to_cursor (insert_char_op (push_undo e) c), false) := by
  simp [process_keypress, h1, h2, h3, h4]

/-- Every edit keystroke routes through push_undo and then an operation that
does not touch the history stacks. -/
theorem process_keypress_edit (e : Editor) {ev : KeyEventM} (w : Bool)
    (h : IsEditKeystroke ev) :
    ∃ op : Editor → Editor,
      process_keypress e ev w = (scroll_to_cursor (op (push_undo e)), false) ∧
      ∀ e' : Editor, (op e').undo_stack = e'.undo_stack ∧ (op e').redo_stack = e'.redo_stack := by
  obtain ⟨code, a, k, p⟩ := ev
  obtain ⟨hp, hrest⟩ := h
  cases p with
  | false => exact absurd hp (by simp)
  | true =>
    cases code with
    | char c =>
      obtain ⟨h1, h2, h3, h4⟩ := hrest
      refine ⟨fun e' => insert_char_op e' c, process_keypress_char e w c a k h1 h2 h3 h4, ?_⟩
      exact fun e' => ⟨insert_char_op_undo_stack e' c, insert_char_op_redo_stack e' c⟩
    | backspace =>
      exact ⟨backspace_op, process_keypress_bs e w a k,
        fun e' => ⟨backspace_op_undo_stack e', backspace_op_redo_stack e'⟩⟩
    | enter =>
      exact ⟨enter_op, process_keypress_enter_key e w a k,
        fun e' => ⟨enter_op_undo_stack e', enter_op_redo_stack e'⟩⟩
    | esc => exact hrest.elim
    | left => exact hrest.elim
    | right => exact hrest.elim
    | up => exact hrest.elim
    | down => exact hrest.elim
    | other => exact hrest.elim

theorem backspace_op_origin (e : Editor) (h0 : e.cursor_x = 0) (h1 : e.cursor_y = 0) :
    backspace_op e = e := by
  unfold backspace_op
  rw [h0, h1]
  simp

theorem isEdit_charKey (c : Char) : IsEditKeystroke (charKey c) := by
  refine ⟨rfl, ?_⟩
  simp [charKey]

theorem isEdit_bsKey : IsEditKeystroke bsKey := ⟨rfl, trivial⟩

/-! Shape of the backspace line merge. -/

theorem getD_append_eq_len {α : Type} (l₁ : List α) (x : α) (l₂ : List α) (d : α) (n : Nat)
    (h : n = l₁.length) : (l₁ ++ x :: l₂).getD n d = x := by
  subst h
  exact getD_append_len l₁ x l₂ d

theorem set_append_eq_len {α : Type} (l₁ : List α) (x : α) (l₂ : List α) (a : α) (n : Nat)
    (h : n = l₁.length) : (l₁ ++ x :: l₂).set n a = l₁ ++ a :: l₂ := by
  subst h
  exact set_append_len l₁ x l₂ a

/-! Characterization of the search scan (used for claim C3). -/

theorem findSub_none (q : List Char) : ∀ s : List Char, findSub q s = none →
    ∀ p : Nat, q.isPrefixOf (s.drop p) = false := by
  intro s
  induction s with
  | nil =>
    intro h p
    unfold findSub at h
    by_cases hq : q.isPrefixOf ([] : List Char)
    · rw [if_pos hq] at h
      exact absurd h (by simp)
    · rw [List.drop_nil]
      exact Bool.eq_false_iff.mpr hq
  | cons c t ih =>
    intro h p
    unfold findSub at h
    by_cases hq : q.isPrefixOf (c :: t)
    · rw [if_pos hq] at h
      exact absurd h (by simp)
    · rw [if_neg hq] at h
      have ht : findSub q t = none := by
        cases hft : findSub q t with
        | none => rfl
        | some m =>
          rw [hft] at h
          exact absurd h (by simp)
      cases p with
      | zero => simpa using Bool.eq_false_iff.mpr hq
      | succ m => simpa using ih ht m

theorem findSub_some (q : List Char) : ∀ (s : List Char) (p : Nat), findSub q s = some p →
    q.isPrefixOf (s.drop p) = true ∧ ∀ p' < p, q.isPrefixOf (s.drop p') = false := by
  intro s
  induction s with
  | nil =>
    intro p h
    unfold findSub at h
    by_cases hq : q.isPrefixOf ([] : List Char)
    · rw [if_pos hq] at h
      obtain rfl : (0 : Nat) = p := by simpa using h
      exact ⟨by simpa using hq, by omega⟩
    · rw [if_neg hq] at h
      exact absurd h (by simp)
  | cons c t ih =>
    intro p h
    unfold findSub at h
    by_cases hq : q.isPrefixOf (c :: t)
    · rw [if_pos hq] at h
      obtain rfl : (0 : Nat) = p := by simpa using h
      refine ⟨by simpa using hq, ?_⟩
      intro p' hp'
      omega
    · rw [if_neg hq] at h
      cases hft : findSub q t with
      | none =>
        rw [hft] at h
        exact absurd h (by simp)
      | some m =>
        rw [hft] at h
        obtain rfl : m + 1 = p := by simpa using h
        obtain ⟨hm1, hm2⟩ := ih m hft
        refine ⟨by simpa using hm1, ?_⟩
        intro p' hp'
        cases p' with
        | zero => simpa using Bool.eq_false_iff.mpr hq
        | succ j => simpa using hm2 j (by omega)

theorem prefix_pos_lt (q l : List Char) (p : Nat) (hq : q ≠ [])
    (h : q.isPrefixOf (l.drop p) = true) : p < l.length := by
  by_contra hle
  push_neg at hle
  rw [List.drop_eq_nil_of_le hle] at h
  cases q with
  | nil => exact hq rfl
  | cons a t => simp [List.isPrefixOf] at h

theorem searchLineFrom_lb (line q : List Char) : ∀ fuel start n : Nat,
    n ∈ searchLineFrom line q start fuel → start ≤ n := by
  intro fuel
  induction fuel with
  | zero =>
    intro start n h
    simp [searchLineFrom] at h
  | succ f ih =>
    intro start n h
    unfold searchLineFrom at h
    cases hf : findSub q (line.drop start) with
    | none =>
      rw [hf] at h
      simp at h
    | some pos =>
      rw [hf] at h
      rcases List.mem_cons.mp h with h1 | h2
      · omega
      · have := ih (start + pos + 1) n h2
        omega

theorem searchLineFrom_pairwise (line q : List Char) : ∀ fuel start : Nat,
    (searchLineFrom line q start fuel).Pairwise (· < ·) := by
  intro fuel
  induction fuel with
  | zero =>
    intro start
    simp [searchLineFrom]
  | succ f ih =>
    intro start
    unfold searchLineFrom
    cases hf : findSub q (line.drop start) with
    | none => simp
    | some pos =>
      refine List.Pairwise.cons ?_ (ih (start + pos + 1))
      intro b hb
      have := searchLineFrom_lb line q f (start + pos + 1) b hb
      omega

theorem mem_searchLineFrom (line q : List Char) (hq : q ≠ []) : ∀ fuel start : Nat,
    line.length + 1 ≤ start + fuel → ∀ n : Nat,
    (n ∈ searchLineFrom line q start fuel ↔
      start ≤ n ∧ q.isPrefixOf (line.drop n) = true) := by
  intro fuel
  induction fuel with
  | zero =>
    intro start hfs n
    simp only [searchLineFrom, List.not_mem_nil, false_iff]
    rintro ⟨hsn, hpre⟩
    have := prefix_pos_lt q line n hq hpre
    omega
  | succ f ih =>
    intro start hfs n
    unfold searchLineFrom
    cases hf : findSub q (line.drop start) with
    | none =>
      simp only [List.not_mem_nil, false_iff]
      rintro ⟨hsn, hpre⟩
      have hnone := findSub_none q (line.drop start) hf (n - start)
      rw [List.drop_drop] at hnone
      have heq : start + (n - start) = n := by omega
      rw [heq, hpre] at hnone
      exact absurd hnone (by simp)
    | some pos =>
      obtain ⟨hppre, hpmin⟩ := findSub_some q (line.drop start) pos hf
      rw [List.drop_drop] at hppre
      constructor
      · intro hmem
        rcases List.mem_cons.mp hmem with h1 | h2
        · subst h1
          exact ⟨by omega, hppre⟩
        · have hmem2 := (ih (start + pos + 1) (by omega) n).mp h2
          exact ⟨by omega, hmem2.2⟩
      · rintro ⟨hsn, hpre⟩
        by_cases hn : n = start + pos
        · subst hn
          exact List.mem_cons_self _ _
        · have hgt : start + pos + 1 ≤ n := by
            by_contra hlt
            push_neg at hlt
            have h5 := hpmin (n - start) (by omega)
            rw [List.drop_drop] at h5
            have h6 : start + (n - start) = n := by omega
            rw [h6, hpre] at h5
            exact absurd h5 (by simp)
          exact List.mem_cons_of_mem _ ((ih (start + pos + 1) (by omega) n).mpr ⟨hgt, hpre⟩)

theorem mem_occOf (line q : List Char) (n : Nat) :
    n ∈ occOf line q ↔ n < line.length ∧ q.isPrefixOf (line.drop n) = true := by
  simp [occOf, List.mem_filter, List.mem_range]

theorem occOf_pairwise (line q : List Char) : (occOf line q).Pairwise (· < ·) := by
  unfold occOf
  exact List.Pairwise.filter _ (List.pairwise_lt_range _)

theorem eq_of_pairwise_lt_ext : ∀ l₁ l₂ : List Nat, l₁.Pairwise (· < ·) →
    l₂.Pairwise (· < ·) → (∀ n, n ∈ l₁ ↔ n ∈ l₂) → l₁ = l₂ := by
  intro l₁
  induction l₁ with
  | nil =>
    intro l₂ _ _ hmem
    cases l₂ with
    | nil => rfl
    | cons b t => exact absurd ((hmem b).mpr (List.mem_cons_self b t)) (List.not_mem_nil b)
  | cons a t₁ ih =>
    intro l₂ h₁ h₂ hmem
    cases l₂ with
    | nil => exact absurd ((hmem a).mp (List.mem_cons_self a t₁)) (List.not_mem_nil a)
    | cons b t₂ =>
      obtain ⟨ha1, ht1⟩ := List.pairwise_cons.mp h₁
      obtain ⟨hb1, ht2⟩ := List.pairwise_cons.mp h₂
      have hab : a = b := by
        rcases List.mem_cons.mp ((hmem a).mp (List.mem_cons_self a t₁)) with h | h
        · exact h
        · have hba := hb1 a h
          rcases List.mem_cons.mp ((hmem b).mpr (List.mem_cons_self b t₂)) with h' | h'
          · omega
          · have hab2 := ha1 b h'
            omega
      subst hab
      have htmem : ∀ n, n ∈ t₁ ↔ n ∈ t₂ := by
        intro n
        constructor
        · intro hn
          have hlt := ha1 n hn
          rcases List.mem_cons.mp ((hmem n).mp (List.mem_cons_of_mem a hn)) with h | h
          · omega
          · exact h
        · intro hn
          have hlt := hb1 n hn
          rcases List.mem_cons.mp ((hmem n).mpr (List.mem_cons_of_mem a hn)) with h | h
          · omega
          · exact h
      rw [ih t₂ ht1 ht2 htmem]

theorem searchLineFrom_eq_occOf (line q : List Char) (hq : q ≠ []) :
    searchLineFrom line q 0 (line.length + 1) = occOf line q := by
  apply eq_of_pairwise_lt_ext
  · exact searchLineFrom_pairwise line q _ _
  · exact occOf_pairwise line q
  · intro n
    rw [mem_searchLineFrom line q hq (line.length + 1) 0 (by omega) n, mem_occOf]
    constructor
    · rintro ⟨_, hpre⟩
      exact ⟨prefix_pos_lt q line n hq hpre, hpre⟩
    · rintro ⟨_, hpre⟩
      exact ⟨Nat.zero_le n, hpre⟩

theorem flatMap_congr {α β : Type} (l : List α) (f g : α → List β)
    (h : ∀ a ∈ l, f a = g a) : l.flatMap f = l.flatMap g := by
  induction l with
  | nil => rfl
  | cons a t ih =>
    rw [List.flatMap_cons, List.flatMap_cons, h a (List.mem_cons_self a t),
      ih fun x hx => h x (List.mem_cons_of_mem a hx)]

theorem pairwise_flatMap {α β : Type} (l : List α) (f : α → List β) (R : β → β → Prop)
    (h1 : ∀ a ∈ l, (f a).Pairwise R)
    (h2 : l.Pairwise fun a b => ∀ x ∈ f a, ∀ y ∈ f b, R x y) :
    (l.flatMap f).Pairwise R := by
  induction l with
  | nil => simp
  | cons a t ih =>
    rw [List.flatMap_cons, List.pairwise_append]
    obtain ⟨ha, ht⟩ := List.pairwise_cons.mp h2
    refine ⟨h1 a (List.mem_cons_self a t),
      ih (fun x hx => h1 x (List.mem_cons_of_mem a hx)) ht, ?_⟩
    intro x hx y hy
    obtain ⟨b, hb, hyb⟩ := List.mem_flatMap.mp hy
    exact ha b hb x hx y hyb

theorem enum_pairwise_fst {α : Type} (l : List α) :
    l.enum.Pairwise fun a b => a.1 < b.1 := by
  have h := List.pairwise_lt_range l.length
  rw [← List.enum_map_fst l] at h
  exact List.pairwise_map.mp h

theorem results_expr_eq (rows : List (List Char)) (q : List Char) (hq : q ≠ []) :
    (rows.enum.flatMap fun il =>
      (searchLineFrom (lowerStr il.2) (lowerStr q) 0 ((lowerStr il.2).length + 1)).map
        fun p => (il.1, p)) = allOccurrences rows q := by
  unfold allOccurrences
  apply flatMap_congr
  intro il _
  rw [searchLineFrom_eq_occOf _ _ (by simpa [lowerStr] using hq)]

theorem search_results_of_jump (e1 : Editor) (results : List (Nat × Nat))
    (h : e1.search_results = results) :
    (match results with
      | [] => e1
      | (row, col) :: _ =>
        scroll_to_cursor { e1 with cursor_x := row, cursor_y := col }).search_results =
      results := by
  cases results with
  | nil => exact h
  | cons rc tail =>
    cases rc with
    | mk row col => simpa using h

/-! ASCII bridge: on ASCII content the byte-accurate operations coincide
with the character-level ones, character by character. -/

theorem uint32_le_iff_toNat_le (a b : UInt32) : a ≤ b ↔ a.toNat ≤ b.toNat := by
  rw [UInt32.le_def, BitVec.le_def]
  exact Iff.rfl

theorem char_toNat_ofNat (m : Nat) (h : m < 55296) : (Char.ofNat m).toNat = m := by
  rw [Char.ofNat, dif_pos (Or.inl h)]
  rfl

theorem ascii_utf8Size (c : Char) (h : c.toNat < 128) : c.utf8Size = 1 := by
  have hle : c.val ≤ UInt32.ofNatCore 0x7F (by decide) := by
    rw [uint32_le_iff_toNat_le]
    show c.toNat ≤ 127
    omega
  unfold Char.utf8Size
  dsimp only
  rw [if_pos hle]

theorem toLower_ascii (c : Char) (h : c.toNat < 128) : (Char.toLower c).toNat < 128 := by
  unfold Char.toLower
  dsimp only
  split
  · rename_i hc
    rw [char_toNat_ofNat (c.toNat + 32) (by omega)]
    omega
  · exact h

theorem allAscii_drop (s : List Char) (hA : AllAscii s) (n : Nat) : AllAscii (s.drop n) :=
  fun c hc => hA c (List.drop_subset n s hc)

theorem lowerStr_ascii (s : List Char) (hA : AllAscii s) : AllAscii (lowerStr s) := by
  intro c hc
  obtain ⟨c₀, hc₀, rfl⟩ := List.mem_map.mp hc
  exact toLower_ascii c₀ (hA c₀ hc₀)

theorem utf8Len_eq_length : ∀ s : List Char, AllAscii s → utf8Len s = s.length := by
  intro s
  induction s with
  | nil => intro _; rfl
  | cons c t ih =>
    intro hA
    unfold utf8Len
    rw [ascii_utf8Size c (hA c (List.mem_cons_self c t)),
      ih fun x hx => hA x (List.mem_cons_of_mem c hx)]
    simp only [List.length_cons]
    omega

theorem utf8ByteDrop_ascii : ∀ s : List Char, AllAscii s → ∀ n : Nat, n ≤ s.length →
    utf8ByteDrop s n = some (s.drop n) := by
  intro s
  induction s with
  | nil =>
    intro _ n hn
    obtain rfl : n = 0 := by simpa using hn
    rfl
  | cons c t ih =>
    intro hA n hn
    cases n with
    | zero => rfl
    | succ m =>
      unfold utf8ByteDrop
      rw [ascii_utf8Size c (hA c (List.mem_cons_self c t)), if_pos (by omega)]
      have hm : m + 1 - 1 = m := by omega
      rw [hm]
      exact ih (fun x hx => hA x (List.mem_cons_of_mem c hx)) m (by simpa using hn)

theorem findSubB_ascii (q : List Char) : ∀ s : List Char, AllAscii s →
    findSubB q s = findSub q s := by
  intro s
  induction s with
  | nil => intro _; rfl
  | cons c t ih =>
    intro hA
    unfold findSubB findSub
    by_cases hq : q.isPrefixOf (c :: t)
    · rw [if_pos hq, if_pos hq]
    · rw [if_neg hq, if_neg hq, ih fun x hx => hA x (List.mem_cons_of_mem c hx)]
      simp only [ascii_utf8Size c (hA c (List.mem_cons_self c t))]

theorem searchLineFromB_ascii (line q : List Char) (hq : q ≠ []) (hA : AllAscii line) :
    ∀ fuel start : Nat, start ≤ line.length →
      searchLineFromB line q start fuel = some (searchLineFrom line q start fuel) := by
  intro fuel
  induction fuel with
  | zero => intro start _; rfl
  | succ f ih =>
    intro start hs
    unfold searchLineFromB searchLineFrom
    rw [utf8ByteDrop_ascii line hA start hs]
    dsimp only
    rw [findSubB_ascii q (line.drop start) (allAscii_drop line hA start)]
    cases hf : findSub q (line.drop start) with
    | none => rfl
    | some pos =>
      have hpre := (findSub_some q (line.drop start) pos hf).1
      rw [List.drop_drop] at hpre
      have hlt : start + pos < line.length := prefix_pos_lt q line (start + pos) hq hpre
      dsimp only
      rw [ih (start + pos + 1) (by omega)]
      rfl

theorem snd_mem_of_mem_enumFrom {α : Type} : ∀ (l : List α) (n : Nat) (p : Nat × α),
    p ∈ List.enumFrom n l → p.2 ∈ l := by
  intro l
  induction l with
  | nil =>
    intro n p h
    simp [List.enumFrom] at h
  | cons a t ih =>
    intro n p h
    simp only [List.enumFrom] at h
    rcases List.mem_cons.mp h with h1 | h2
    · subst h1
      exact List.mem_cons_self a t
    · exact List.mem_cons_of_mem a (ih (n + 1) p h2)

theorem snd_mem_of_mem_enum {α : Type} (l : List α) (p : Nat × α) (h : p ∈ l.enum) :
    p.2 ∈ l :=
  snd_mem_of_mem_enumFrom l 0 p h

theorem collectLines_ascii (q : List Char) (hq : q ≠ []) :
    ∀ l : List (Nat × List Char), (∀ il ∈ l, AllAscii il.2) →
      collectLines l q = some (l.flatMap fun il =>
        (searchLineFrom (lowerStr il.2) q 0 ((lowerStr il.2).length + 1)).map
          fun p => (il.1, p)) := by
  intro l
  induction l with
  | nil => intro _; rfl
  | cons il rest ih =>
    intro hA
    have hAl : AllAscii (lowerStr il.2) :=
      lowerStr_ascii il.2 (hA il (List.mem_cons_self il rest))
    unfold collectLines
    rw [utf8Len_eq_length (lowerStr il.2) hAl,
      searchLineFromB_ascii (lowerStr il.2) q hq hAl ((lowerStr il.2).length + 1) 0
        (Nat.zero_le _),
      ih fun x hx => hA x (List.mem_cons_of_mem il hx)]
    simp [List.flatMap_cons]

theorem allOccurrences_sorted (rows : List (List Char)) (q : List Char) :
    (allOccurrences rows q).Pairwise lexLt := by
  unfold allOccurrences
  apply pairwise_flatMap
  · intro il _
    rw [List.pairwise_map]
    apply List.Pairwise.imp ?_ (occOf_pairwise _ _)
    intro a b hab
    exact Or.inr ⟨rfl, hab⟩
  · apply List.Pairwise.imp ?_ (enum_pairwise_fst rows)
    intro a b hab x hx y hy
    obtain ⟨p, hp, rfl⟩ := List.mem_map.mp hx
    obtain ⟨p', hp', rfl⟩ := List.mem_map.mp hy
    exact Or.inl hab

/-! Shape of the byte-accurate backspace line merge. -/

theorem backspace_op_bytes_merge (e : Editor) (h0 : e.cursor_x = 0) (h1 : 0 < e.cursor_y)
    (h2 : e.cursor_y < e.rows.length) :
    ∃ r : Editor, backspace_op_bytes e = some r ∧
      r.rows = e.rows.take (e.cursor_y - 1) ++
        (e.rows.getD (e.cursor_y - 1) [] ++ e.rows.getD e.cursor_y []) ::
          e.rows.drop (e.cursor_y + 1) ∧
      r.cursor_y = e.cursor_y - 1 ∧
      r.cursor_x = utf8Len (e.rows.getD (e.cursor_y - 1) []) := by
  have hx0 : ¬ 0 < e.cursor_x := by omega
  have hy1 : e.cursor_y - 1 < e.rows.length := by omega
  have htk : e.rows.take e.cursor_y =
      e.rows.take (e.cursor_y - 1) ++ [e.rows.getD (e.cursor_y - 1) []] := by
    have h := take_succ_getD e.rows (e.cursor_y - 1) [] hy1
    have hy2 : e.cursor_y - 1 + 1 = e.cursor_y := by omega
    rw [hy2] at h
    exact h
  have hrows1 : e.rows.take e.cursor_y ++ e.rows.drop (e.cursor_y + 1) =
      e.rows.take (e.cursor_y - 1) ++
        e.rows.getD (e.cursor_y - 1) [] :: e.rows.drop (e.cursor_y + 1) := by
    rw [htk, List.append_assoc, List.singleton_append]
  have hlt : e.cursor_y - 1 = (e.rows.take (e.cursor_y - 1)).length := by
    simp only [List.length_take]
    omega
  have hprev :
      (e.rows.take e.cursor_y ++ e.rows.drop (e.cursor_y + 1)).getD (e.cursor_y - 1) [] =
        e.rows.getD (e.cursor_y - 1) [] := by
    rw [hrows1]
    exact getD_append_eq_len _ _ _ _ _ hlt
  have hset : (e.rows.take e.cursor_y ++ e.rows.drop (e.cursor_y + 1)).set (e.cursor_y - 1)
        (e.rows.getD (e.cursor_y - 1) [] ++ e.rows.getD e.cursor_y []) =
      e.rows.take (e.cursor_y - 1) ++
        (e.rows.getD (e.cursor_y - 1) [] ++ e.rows.getD e.cursor_y []) ::
          e.rows.drop (e.cursor_y + 1) := by
    rw [hrows1]
    exact set_append_eq_len _ _ _ _ _ hlt
  unfold backspace_op_bytes
  rw [if_pos h2, if_neg hx0, if_pos h1]
  dsimp only
  refine ⟨_, rfl, ?_, rfl, ?_⟩
  · dsimp only
    rw [hprev, hset]
  · dsimp only
    rw [hprev]

theorem backspace_op_bytes_origin (e : Editor) (h0 : e.cursor_x = 0) (h1 : e.cursor_y = 0) :
    backspace_op_bytes e = some e := by
  unfold backspace_op_bytes
  rw [h0, h1]
  simp

/-! Claim theorems. -/

/-- C1 (code_bug): the spec says that on a non-empty result set the cursor
jumps to the first match — row to the match row, column to the match column —
and the scroll is re-derived.  The code instead assigns the match row to
`cursor_x` (the column field) and the match column to `cursor_y` (the row
field).  With buffer ["xxb"] and query "b" the single match is (row 0,
col 2), yet after perform_search the cursor sits at row 2, column 0 rather
than at row 0, column 2. -/
theorem search_jump_swaps_coordinates :
    (perform_search c1Input).search_results = [(0, 2)] ∧
    (perform_search c1Input).cursor_y = 2 ∧
    (perform_search c1Input).cursor_x = 0 ∧
    ¬((perform_search c1Input).cursor_y = 0 ∧ (perform_search c1Input).cursor_x = 2) := by
  decide

/-- C2 (code_bug): the claim says the dirty flag is cleared only after a
confirmed successful write, and that a save with no filename, or a save
whose write fails, leaves the dirty flag unchanged.  The Alt+s handler in
process_keypress instead sets `dirty = false` unconditionally after calling
save: starting from a dirty unnamed buffer, and from a dirty named buffer
whose `fs::write` fails, the keystroke clears the dirty flag in both cases
(the buffer contents themselves are left unchanged). -/
theorem save_keystroke_clears_dirty_without_successful_write :
    c2NoName.dirty = true ∧ c2NoName.filename = none ∧
    (process_keypress c2NoName altS true).1.dirty = false ∧
    (process_keypress c2NoName altS true).1.rows = c2NoName.rows ∧
    c2Named.dirty = true ∧
    (process_keypress c2Named altS false).1.dirty = false ∧
    (process_keypress c2Named altS false).1.rows = c2Named.rows := by
  decide

/-- C4 (confirmed): with a non-empty undo stack, undo then redo restores the
buffer and the cursor present before the pair; symmetrically with a
non-empty redo stack, redo then undo restores them; undo after any single
mutating keystroke restores the pre-keystroke buffer and cursor; and redo
after that undo restores the post-keystroke buffer and cursor. -/
theorem undo_redo_round_trip (w : Bool) (e : Editor) (ev : KeyEventM)
    (hev : IsEditKeystroke ev) :
    (e.undo_stack ≠ [] →
      ((process_keypress (process_keypress e ctrlZ w).1 ctrlX w).1.rows = e.rows ∧
       (process_keypress (process_keypress e ctrlZ w).1 ctrlX w).1.cursor_x = e.cursor_x ∧
       (process_keypress (process_keypress e ctrlZ w).1 ctrlX w).1.cursor_y = e.cursor_y)) ∧
    (e.redo_stack ≠ [] →
      ((process_keypress (process_keypress e ctrlX w).1 ctrlZ w).1.rows = e.rows ∧
       (process_keypress (process_keypress e ctrlX w).1 ctrlZ w).1.cursor_x = e.cursor_x ∧
       (process_keypress (process_keypress e ctrlX w).1 ctrlZ w).1.cursor_y = e.cursor_y)) ∧
    ((process_keypress (process_keypress e ev w).1 ctrlZ w).1.rows = e.rows ∧
     (process_keypress (process_keypress e ev w).1 ctrlZ w).1.cursor_x = e.cursor_x ∧
     (process_keypress (process_keypress e ev w).1 ctrlZ w).1.cursor_y = e.cursor_y) ∧
    ((process_keypress (process_keypress (process_keypress e ev w).1 ctrlZ w).1 ctrlX w).1.rows =
        (process_keypress e ev w).1.rows ∧
     (process_keypress (process_keypress (process_keypress e ev w).1 ctrlZ w).1 ctrlX w).1.cursor_x =
        (process_keypress e ev w).1.cursor_x ∧
     (process_keypress (process_keypress (process_keypress e ev w).1 ctrlZ w).1 ctrlX w).1.cursor_y =
        (process_keypress e ev w).1.cursor_y) := by
  obtain ⟨op, hop, hst⟩ := process_keypress_edit e w hev
  have hu1 : (process_keypress e ev w).1.undo_stack = snapshot e :: e.undo_stack := by
    rw [hop]
    simp [(hst (push_undo e)).1]
  refine ⟨?_, ?_, ?_, ?_⟩
  · intro hne
    obtain ⟨p, rest, hu⟩ : ∃ p rest, e.undo_stack = p :: rest := by
      cases h : e.undo_stack with
      | nil => exact absurd h hne
      | cons p rest => exact ⟨p, rest, rfl⟩
    rw [process_keypress_ctrlZ, undo_op_cons e p rest hu, process_keypress_ctrlX,
      redo_op_cons _ (snapshot e) e.redo_stack (by simp)]
    simp
  · intro hne
    obtain ⟨p, rest, hr⟩ : ∃ p rest, e.redo_stack = p :: rest := by
      cases h : e.redo_stack with
      | nil => exact absurd h hne
      | cons p rest => exact ⟨p, rest, rfl⟩
    rw [process_keypress_ctrlX, redo_op_cons e p rest hr, process_keypress_ctrlZ,
      undo_op_cons _ (snapshot e) e.undo_stack (by simp)]
    simp
  · rw [process_keypress_ctrlZ, undo_op_cons _ (snapshot e) e.undo_stack hu1]
    simp
  · rw [process_keypress_ctrlZ, undo_op_cons _ (snapshot e) e.undo_stack hu1,
      process_keypress_ctrlX,
      redo_op_cons _ (snapshot (process_keypress e ev w).1)
        ((process_keypress e ev w).1.redo_stack) (by simp)]
    simp

/-- Witness for C4 at a concrete editor with non-empty undo and redo stacks
and the plain keystroke inserting the character a. -/
theorem undo_redo_round_trip_witness :
    IsEditKeystroke (charKey 'a') ∧ c4W.undo_stack ≠ [] ∧
    (process_keypress (process_keypress c4W ctrlZ true).1 ctrlX true).1.rows = c4W.rows :=
  ⟨isEdit_charKey 'a', by decide,
    ((undo_redo_round_trip true c4W (charKey 'a') (isEdit_charKey 'a')).1 (by decide)).1⟩

/-- C5 (confirmed): every mutating edit keystroke leaves the redo stack
empty, and a redo keystroke issued on the resulting state is a no-op on the
buffer, the cursor, and both history stacks. -/
theorem edit_clears_redo_stack (w : Bool) (e : Editor) (ev : KeyEventM)
    (hev : IsEditKeystroke ev) :
    (process_keypress e ev w).1.redo_stack = [] ∧
    ((process_keypress (process_keypress e ev w).1 ctrlX w).1.rows =
        (process_keypress e ev w).1.rows ∧
     (process_keypress (process_keypress e ev w).1 ctrlX w).1.cursor_x =
        (process_keypress e ev w).1.cursor_x ∧
     (process_keypress (process_keypress e ev w).1 ctrlX w).1.cursor_y =
        (process_keypress e ev w).1.cursor_y ∧
     (process_keypress (process_keypress e ev w).1 ctrlX w).1.undo_stack =
        (process_keypress e ev w).1.undo_stack ∧
     (process_keypress (process_keypress e ev w).1 ctrlX w).1.redo_stack =
        (process_keypress e ev w).1.redo_stack) := by
  obtain ⟨op, hop, hst⟩ := process_keypress_edit e w hev
  have hredo : (process_keypress e ev w).1.redo_stack = [] := by
    rw [hop]
    simp [(hst (push_undo e)).2]
  refine ⟨hredo, ?_⟩
  rw [process_keypress_ctrlX, redo_op_nil _ hredo]
  simp

/-- Witness for C5 at a concrete editor whose redo stack is non-empty before
the edit. -/
theorem edit_clears_redo_stack_witness :
    IsEditKeystroke (charKey 'a') ∧ c4W.redo_stack ≠ [] ∧
    (process_keypress c4W (charKey 'a') true).1.redo_stack = [] :=
  ⟨isEdit_charKey 'a', by decide,
    (edit_clears_redo_stack true c4W (charKey 'a') (isEdit_charKey 'a')).1⟩

/-- C6 (code_bug): the claim says that for every input line the tokens of
highlight_line concatenate exactly to the input.  The comment branch slices
`&line[i..]` with a character index used as a byte offset: on the line
éa//b the word token éa is followed by a comment token a//b, so the
concatenation éaa//b duplicates a character; and on €//b the byte offset 1
falls inside the three-byte euro sign, so the Rust program panics (`none`
in this model). -/
theorem highlight_concat_mismatch_on_multibyte :
    (highlight_line ("éa//b".toList)).map tokensText = some ("éaa//b".toList) ∧
    "éaa//b".toList ≠ "éa//b".toList ∧
    highlight_line ("€//b".toList) = none := by
  decide

/-- C9 (confirmed): in search mode every character press — whatever its
modifier set — is appended to the query and the search re-runs, so the
Alt+q, Alt+s and Alt+f bindings are inert there (their characters are simply
appended, the loop never quits from search mode); and apart from characters
only Escape, Enter, and Backspace are treated specially — every other key
leaves the state unchanged. -/
theorem search_mode_char_handling (e : Editor) (c : Char) (a1 k1 a2 k2 w1 w2 : Bool)
    (h : e.search_mode = true) :
    dispatch e ⟨KeyCode.char c, a1, k1, true⟩ w1 =
      dispatch e ⟨KeyCode.char c, a2, k2, true⟩ w2 ∧
    (dispatch e ⟨KeyCode.char c, a1, k1, true⟩ w1).1 =
      perform_search { e with search_query := e.search_query ++ [c] } ∧
    (dispatch e ⟨KeyCode.char c, a1, k1, true⟩ w1).2 = false ∧
    (∀ ev : KeyEventM, ev.press = true →
      (∀ c', ev.code ≠ KeyCode.char c') → ev.code ≠ KeyCode.esc →
      ev.code ≠ KeyCode.enter → ev.code ≠ KeyCode.backspace →
      dispatch e ev w1 = (e, false)) := by
  have hd : ∀ a k wb : Bool, dispatch e ⟨KeyCode.char c, a, k, true⟩ wb =
      (perform_search { e with search_query := e.search_query ++ [c] }, false) := by
    intro a k wb
    simp [dispatch, h, process_search_keypress]
  refine ⟨by rw [hd, hd], by rw [hd], by rw [hd], ?_⟩
  intro ev hp hchar hesc hent hbs
  obtain ⟨code, a, k, p⟩ := ev
  cases code with
  | char c' => exact absurd rfl (hchar c')
  | esc => exact absurd rfl hesc
  | enter => exact absurd rfl hent
  | backspace => exact absurd rfl hbs
  | left => cases p <;> simp [dispatch, h, process_search_keypress]
  | right => cases p <;> simp [dispatch, h, process_search_keypress]
  | up => cases p <;> simp [dispatch, h, process_search_keypress]
  | down => cases p <;> simp [dispatch, h, process_search_keypress]
  | other => cases p <;> simp [dispatch, h, process_search_keypress]

/-- Witness for C9: in search mode with query a, pressing Alt+q appends q
instead of quitting. -/
theorem search_mode_char_handling_witness :
    c9W.search_mode = true ∧
    (dispatch c9W ⟨KeyCode.char 'q', true, false, true⟩ true).1.search_query = "aq".toList := by
  refine ⟨rfl, ?_⟩
  rw [(search_mode_char_handling c9W 'q' true false false false true true rfl).2.1]
  decide

/-- C10 (confirmed): every edit keystroke pushes the pre-keystroke snapshot
and clears the redo stack before its applicability checks run, so a
backspace at (0,0) — which changes nothing — still grows the undo stack by
exactly that snapshot, whose restoration is the identity on buffer and
cursor, and still empties the redo stack. -/
theorem edit_always_pushes_undo (w : Bool) (e : Editor) (ev : KeyEventM)
    (hev : IsEditKeystroke ev) :
    (process_keypress e ev w).1.undo_stack = snapshot e :: e.undo_stack ∧
    (process_keypress e ev w).1.redo_stack = [] ∧
    (e.cursor_x = 0 → e.cursor_y = 0 → ev.code = KeyCode.backspace →
      ((process_keypress e ev w).1.rows = e.rows ∧
       (process_keypress e ev w).1.cursor_x = e.cursor_x ∧
       (process_keypress e ev w).1.cursor_y = e.cursor_y ∧
       (restore (process_keypress e ev w).1 (snapshot e)).rows =
          (process_keypress e ev w).1.rows ∧
       (restore (process_keypress e ev w).1 (snapshot e)).cursor_x =
          (process_keypress e ev w).1.cursor_x ∧
       (restore (process_keypress e ev w).1 (snapshot e)).cursor_y =
          (process_keypress e ev w).1.cursor_y)) := by
  obtain ⟨op, hop, hst⟩ := process_keypress_edit e w hev
  refine ⟨?_, ?_, ?_⟩
  · rw [hop]
    simp [(hst (push_undo e)).1]
  · rw [hop]
    simp [(hst (push_undo e)).2]
  · intro hx hy hcode
    obtain ⟨code, a, k, p⟩ := ev
    obtain ⟨hp, _⟩ := hev
    cases p with
    | false => exact absurd hp (by simp)
    | true =>
      cases code with
      | backspace =>
        have hb : backspace_op (push_undo e) = push_undo e :=
          backspace_op_origin (push_undo e) (by simpa using hx) (by simpa using hy)
        rw [process_keypress_bs, hb]
        simp
      | char c => simp at hcode
      | enter => simp at hcode
      | esc => simp at hcode
      | left => simp at hcode
      | right => simp at hcode
      | up => simp at hcode
      | down => simp at hcode
      | other => simp at hcode

/-- Witness for C10: a backspace at the origin of a one-line buffer grows
the undo stack and clears the redo stack without changing the buffer. -/
theorem edit_always_pushes_undo_witness :
    IsEditKeystroke bsKey ∧
    (process_keypress (mkEditor ["ab".toList] 0 0) bsKey true).1.undo_stack =
      snapshot (mkEditor ["ab".toList] 0 0) :: (mkEditor ["ab".toList] 0 0).undo_stack :=
  ⟨isEdit_bsKey,
    (edit_always_pushes_undo true (mkEditor ["ab".toList] 0 0) bsKey isEdit_bsKey).1⟩

/-- C3 counterexample: the claim says the result list holds the
non-overlapping occurrences of the query.  With buffer ["aaa"] and query
"aa" the scan records matches at columns 0 and 1, which overlap (1 is less
than 0 plus the query length 2); the spec-modelled non-overlapping scan
records only column 0, so the computed result list differs from the
non-overlapping one. -/
theorem search_results_overlap_counterexample :
    (perform_search_bytes c3Input).map (fun r => r.search_results) =
      some [(0, 0), (0, 1)] ∧
    specNonOverlapAll c3Input.rows c3Input.search_query = [(0, 0)] ∧
    (perform_search_bytes c3Input).map (fun r => r.search_results) ≠
      some (specNonOverlapAll c3Input.rows c3Input.search_query) ∧
    (1 : Nat) < 0 + c3Input.search_query.length := by
  decide

/-- C3 (corrected): for every buffer of ASCII lines and every non-empty
ASCII query, perform_search recomputes the result list as exactly all
case-insensitive occurrences of the query across all lines — overlapping
ones included, since the scan resumes one byte after each match start — in
row-ascending then column-ascending order (on ASCII content the byte
columns the program stores coincide with character columns); the empty
query yields an empty result list and does not move the cursor or the
scroll offset.  Beyond ASCII the stored columns are byte offsets, the
resume point can fall inside a multi-byte character and panic, and Rust's
Unicode-aware lowercasing is not character-for-character, which is why the
statement is restricted to ASCII content.  The hypothesis on the query
delimits the scope on which `lowerStr` models Rust's lowercasing (the model
itself lowercases character-wise regardless, so the proof consumes only the
hypothesis on the lines). -/
theorem search_results_characterization (e : Editor)
    (hrows : ∀ line ∈ e.rows, AllAscii line) (hqA : AllAscii e.search_query) :
    (e.search_query ≠ [] →
      (perform_search_bytes e).map (fun r => r.search_results) =
        some (allOccurrences e.rows e.search_query)) ∧
    (∀ r : Editor, perform_search_bytes e = some r →
      r.search_results.Pairwise lexLt) ∧
    (e.search_query = [] →
      perform_search_bytes e = some { e with search_results := ([] : List (Nat × Nat)) }) := by
  have hempty : e.search_query = [] →
      perform_search_bytes e = some { e with search_results := ([] : List (Nat × Nat)) } := by
    intro h
    unfold perform_search_bytes
    dsimp only
    rw [if_pos h]
  have hmain : e.search_query ≠ [] →
      (perform_search_bytes e).map (fun r => r.search_results) =
        some (allOccurrences e.rows e.search_query) := by
    intro hne
    have hqL : lowerStr e.search_query ≠ [] := by
      simpa [lowerStr] using hne
    have hcoll := collectLines_ascii (lowerStr e.search_query) hqL e.rows.enum
      fun il hil => hrows il.2 (snd_mem_of_mem_enum e.rows il hil)
    unfold perform_search_bytes
    dsimp only
    rw [if_neg hne, hcoll]
    dsimp only
    refine congrArg some (Eq.trans ?_ (results_expr_eq e.rows e.search_query hne))
    exact search_results_of_jump _ _ rfl
  refine ⟨hmain, ?_, hempty⟩
  intro r hr
  by_cases h : e.search_query = []
  · rw [hempty h] at hr
    obtain rfl : ({ e with search_results := ([] : List (Nat × Nat)) } : Editor) = r := by
      simpa using hr
    simp
  · have hres := hmain h
    rw [hr] at hres
    have : r.search_results = allOccurrences e.rows e.search_query := by
      simpa using hres
    rw [this]
    exact allOccurrences_sorted e.rows e.search_query

/-- Witness for C3: the ASCII overlap buffer with its non-empty query, and
an empty-query state whose cursor sits away from the origin. -/
theorem search_results_characterization_witness :
    (∀ line ∈ c3Input.rows, AllAscii line) ∧ AllAscii c3Input.search_query ∧
    c3Input.search_query ≠ [] ∧
    (perform_search_bytes c3Input).map (fun r => r.search_results) =
      some (allOccurrences c3Input.rows c3Input.search_query) ∧
    perform_search_bytes c3EmptyQuery =
      some { c3EmptyQuery with search_results := ([] : List (Nat × Nat)) } :=
  ⟨by decide, by decide, by decide,
    (search_results_characterization c3Input (by decide) (by decide)).1 (by decide),
    (search_results_characterization c3EmptyQuery (by decide) (by decide)).2.2 rfl⟩

/-- C7 (code_bug): the claim says that after any edit keystrokes from a
valid state the cursor always satisfies `col ≤ len(buffer[row])`, with
lines as sequences of code points (spec section 3).  The program tracks
`cursor_x` in UTF-8 bytes while advancing it by exactly one per inserted
character: from the valid state ["éé", ""] with the cursor at (row 1,
col 0), one Backspace assigns the previous line's byte length 4 to the
column, exceeding the line's code-point length 2 and breaking the
invariant; and from a fresh buffer, typing é and then any character
panics, because `String::insert` is handed byte offset 1 inside the
two-byte é. -/
theorem edit_invariant_fails_on_multibyte :
    Inv c7Bad ∧
    ((backspace_keystroke_bytes c7Bad).map fun p => p.1.cursor_x) = some 4 ∧
    ((backspace_keystroke_bytes c7Bad).map fun p =>
      (p.1.rows.getD p.1.cursor_y []).length) = some 2 ∧
    ((backspace_keystroke_bytes c7Bad).map fun p => decide (Inv p.1)) = some false ∧
    (insert_keystroke_bytes (mkEditor [[]] 0 0) 'é').bind
      (fun p => insert_keystroke_bytes p.1 'a') = none := by
  decide

/-- C8 counterexample: the claim moves the cursor to (row-1, old length of
the previous line), lengths being code-point counts in the data model of
spec section 3.  On the buffer ["éé", "x"] with the cursor at (row 1,
col 0), Backspace merges the lines and the program assigns the previous
line's UTF-8 byte length 4 to the cursor column, not its length 2. -/
theorem backspace_merge_byte_length_counterexample :
    ((backspace_keystroke_bytes c8Bad).map fun p => p.1.cursor_x) = some 4 ∧
    ((backspace_keystroke_bytes c8Bad).map fun p => p.1.rows) = some ["ééx".toList] ∧
    (c8Bad.rows.getD 0 []).length = 2 ∧ (4 : Nat) ≠ 2 := by
  decide

/-- C8 (corrected): backspace at column 0 of a row below the first removes
the current line, appends its text to the previous line, and moves the
cursor to (row-1, the old UTF-8 byte length of the previous line — equal to
its length exactly when that line is ASCII); backspace at (0,0) leaves
buffer and cursor unchanged; and concretely, from ["ab","cd"] with the
cursor at (row 1, col 0) backspace yields ["abcd"] with the cursor at
(row 0, col 2). -/
theorem backspace_line_merge (e : Editor) (h0 : e.cursor_x = 0)
    (h1 : 0 < e.cursor_y) (h2 : e.cursor_y < e.rows.length) :
    ((backspace_keystroke_bytes e).map fun p => p.1.rows) =
      some (e.rows.take (e.cursor_y - 1) ++
        (e.rows.getD (e.cursor_y - 1) [] ++ e.rows.getD e.cursor_y []) ::
          e.rows.drop (e.cursor_y + 1)) ∧
    ((backspace_keystroke_bytes e).map fun p => p.1.cursor_y) = some (e.cursor_y - 1) ∧
    ((backspace_keystroke_bytes e).map fun p => p.1.cursor_x) =
      some (utf8Len (e.rows.getD (e.cursor_y - 1) [])) ∧
    (∀ e2 : Editor, e2.cursor_x = 0 → e2.cursor_y = 0 →
      (((backspace_keystroke_bytes e2).map fun p => p.1.rows) = some e2.rows ∧
       ((backspace_keystroke_bytes e2).map fun p => p.1.cursor_x) = some e2.cursor_x ∧
       ((backspace_keystroke_bytes e2).map fun p => p.1.cursor_y) = some e2.cursor_y)) ∧
    ((backspace_keystroke_bytes c8W).map fun p => p.1.rows) = some ["abcd".toList] ∧
    ((backspace_keystroke_bytes c8W).map fun p => p.1.cursor_y) = some 0 ∧
    ((backspace_keystroke_bytes c8W).map fun p => p.1.cursor_x) = some 2 := by
  obtain ⟨r, hr, hrw, hcy, hcx⟩ := backspace_op_bytes_merge (push_undo e)
    (by simpa using h0) (by simpa using h1) (by simpa using h2)
  have hk : backspace_keystroke_bytes e = some (scroll_to_cursor r, false) := by
    unfold backspace_keystroke_bytes
    rw [hr]
    rfl
  refine ⟨?_, ?_, ?_, ?_, by decide, by decide, by decide⟩
  · rw [hk]
    simpa using hrw
  · rw [hk]
    simpa using hcy
  · rw [hk]
    simpa using hcx
  · intro e2 hx2 hy2
    have hb : backspace_op_bytes (push_undo e2) = some (push_undo e2) :=
      backspace_op_bytes_origin (push_undo e2) (by simpa using hx2) (by simpa using hy2)
    have hk2 : backspace_keystroke_bytes e2 = some (scroll_to_cursor (push_undo e2), false) := by
      unfold backspace_keystroke_bytes
      rw [hb]
      rfl
    refine ⟨?_, ?_, ?_⟩ <;> rw [hk2] <;> simp

/-- Witness for C8 at the spec's concrete two-line ASCII scenario. -/
theorem backspace_line_merge_witness :
    c8W.cursor_x = 0 ∧ 0 < c8W.cursor_y ∧ c8W.cursor_y < c8W.rows.length ∧
    ((backspace_keystroke_bytes c8W).map fun p => p.1.rows) = some ["abcd".toList] :=
  ⟨by decide, by decide, by decide,
    (backspace_line_merge c8W (by decide) (by decide) (by decide)).2.2.2.2.1⟩

end TextEditor
